import Mathlib

set_option autoImplicit false

/-!
Verification of the DuplicatePhotoHandler cache and pipeline against its
specification.  The Rust sources under `src/core/cache` are embedded as
executable Lean definitions; machine integers are modelled as `Nat`/`Int`
with explicit wrapping where the source casts, and `SystemTime` as a signed
count of nanoseconds since the Unix epoch.
-/

/-- Rust `std::time::SystemTime`, modelled as nanoseconds relative to
`UNIX_EPOCH`; negative values are instants before the epoch. -/
abbrev SystemTime := Int

/-- `t.duration_since(UNIX_EPOCH).map(|d| d.as_secs()).unwrap_or(0)` as used by
`CacheEntry::is_valid_for` and `SqliteCache::to_timestamp`: whole seconds since
the epoch, with pre-epoch instants mapped to `0` (there `duration_since`
returns `Err` and `unwrap_or` supplies the zero). -/
def secsSinceEpoch (t : SystemTime) : Nat :=
  if t < 0 then 0 else t.toNat / 1000000000

/-- An `i64` value reinterpreted as `u64` (Rust `x as u64`). -/
def i64AsU64 (x : Int) : Nat :=
  (x % (2 ^ 64)).toNat

/-- A `u64` value reinterpreted as `i64` (Rust `x as i64`). -/
def u64AsI64 (x : Nat) : Int :=
  let r := (x : Int) % (2 ^ 64)
  if r < 2 ^ 63 then r else r - 2 ^ 64

/-- `HashAlgorithmKind` (`src/core/hasher`): the tag stored with a hash. -/
inductive HashAlgorithmKind where
  | average
  | difference
  | perceptual
deriving DecidableEq, Repr

/-- `CacheError` (`src/error/mod.rs`): the cache error taxonomy. -/
inductive CacheError where
  | openFailed (path reason : String)
  | queryFailed (reason : String)
  | corrupted (path : String)
  | serializationFailed (reason : String)
deriving DecidableEq, Repr

/-- `CacheEntry` (`src/core/cache/mod.rs`): one cached hash.  `hash` is the
byte vector, `file_size` a `u64`. -/
structure CacheEntry where
  path : String
  hash : List Nat
  algorithm : HashAlgorithmKind
  file_size : Nat
  file_modified : SystemTime
  cached_at : SystemTime
deriving DecidableEq, Repr

/-- `CacheEntry::is_valid_for` (`src/core/cache/mod.rs`): the entry is valid
for a current file iff sizes are equal and the modification times agree at
whole-second precision. -/
def CacheEntry.is_valid_for (e : CacheEntry) (file_size : Nat)
    (file_modified : SystemTime) : Bool :=
  e.file_size == file_size &&
    secsSinceEpoch e.file_modified == secsSinceEpoch file_modified

/-- One row of the SQLite `hashes` table (`src/core/cache/sqlite.rs`):
`path TEXT PRIMARY KEY, hash BLOB, algorithm TEXT, file_size INTEGER,
file_modified INTEGER, cached_at INTEGER`; the INTEGER columns hold `i64`. -/
structure SqliteRow where
  path : String
  hash : List Nat
  algorithm : String
  file_size : Int
  file_modified : Int
  cached_at : Int
deriving DecidableEq, Repr

/-- `SqliteCache::to_timestamp`: seconds since the epoch as an `i64`. -/
def SqliteCache.to_timestamp (t : SystemTime) : Int :=
  u64AsI64 (secsSinceEpoch t)

/-- `SqliteCache::from_timestamp`: `UNIX_EPOCH + Duration::from_secs(ts as u64)`. -/
def SqliteCache.from_timestamp (ts : Int) : SystemTime :=
  (i64AsU64 ts : Int) * 1000000000

/-- `SqliteCache::algorithm_to_string`. -/
def SqliteCache.algorithm_to_string : HashAlgorithmKind → String
  | .average => "average"
  | .difference => "difference"
  | .perceptual => "perceptual"

/-- `SqliteCache::string_to_algorithm`: unknown strings decode to
`difference`. -/
def SqliteCache.string_to_algorithm (s : String) : HashAlgorithmKind :=
  if s = "average" then .average
  else if s = "perceptual" then .perceptual
  else .difference

/-- The row-to-entry conversion performed inside `SqliteCache::get`'s
`query_row` closure: the requested path is used for `path`, `file_size` is
read back `as u64`, and the timestamps go through `from_timestamp`. -/
def SqliteCache.rowToEntry (path : String) (r : SqliteRow) : CacheEntry :=
  { path := path
    hash := r.hash
    algorithm := SqliteCache.string_to_algorithm r.algorithm
    file_size := i64AsU64 r.file_size
    file_modified := SqliteCache.from_timestamp r.file_modified
    cached_at := SqliteCache.from_timestamp r.cached_at }

/-- The observable state of the SQLite connection during a read: either the
`hashes` table is readable, or the engine fails the query
(`rusqlite` error other than `QueryReturnedNoRows`), or the connection mutex
is poisoned. -/
inductive ConnState where
  | ok (rows : List SqliteRow)
  | queryFault (reason : String)
  | poisoned (dbPath : String)

/-- `SqliteCache::get` (`src/core/cache/sqlite.rs`): a poisoned lock is
`CacheError::Corrupted`, a failing query is `CacheError::QueryFailed`;
otherwise the row with the requested path (unique, `path` is the primary key)
is decoded and returned only if `is_valid_for` holds; no row or a stale row
yields `Ok(None)`. -/
def SqliteCache.get (conn : ConnState) (path : String) (current_size : Nat)
    (current_modified : SystemTime) : Except CacheError (Option CacheEntry) :=
  match conn with
  | .poisoned p => .error (.corrupted p)
  | .queryFault r => .error (.queryFailed r)
  | .ok rows =>
    match rows.find? (fun r => r.path == path) with
    | none => .ok none
    | some r =>
      let e := SqliteCache.rowToEntry path r
      if e.is_valid_for current_size current_modified then .ok (some e)
      else .ok none

/-- `INSERT OR REPLACE` into `hashes` keyed by the `path` primary key:
replace the existing row for this path, or append a new one. -/
def upsertRow (rows : List SqliteRow) (r : SqliteRow) : List SqliteRow :=
  if rows.any (fun q => q.path == r.path) then
    rows.map (fun q => if q.path == r.path then r else q)
  else rows ++ [r]

/-- The row written by `SqliteCache::set` for an entry. -/
def SqliteCache.entryToRow (e : CacheEntry) : SqliteRow :=
  { path := e.path
    hash := e.hash
    algorithm := SqliteCache.algorithm_to_string e.algorithm
    file_size := u64AsI64 e.file_size
    file_modified := SqliteCache.to_timestamp e.file_modified
    cached_at := SqliteCache.to_timestamp e.cached_at }

/-- The SQLite connection during writes: the stored rows plus the external
fault behaviour of the engine — `failInsert p = some reason` means the
`INSERT OR REPLACE` statement for path `p` fails (for example the disk is
full or the database is locked by another process). -/
structure WriteConn where
  rows : List SqliteRow
  failInsert : String → Option String

/-- `SqliteCache::set` (`src/core/cache/sqlite.rs`): one autocommitted
`INSERT OR REPLACE`; an engine failure is mapped to
`CacheError::QueryFailed`. -/
def SqliteCache.set (db : WriteConn) (e : CacheEntry) :
    Except CacheError WriteConn :=
  match db.failInsert e.path with
  | some reason => .error (.queryFailed reason)
  | none => .ok { db with rows := upsertRow db.rows (SqliteCache.entryToRow e) }

/-- `CacheBackend::set_batch`'s default implementation
(`src/core/cache/traits.rs`), which is what `SqliteCache` runs since it does
not override the method: a plain loop of `set` calls, each its own implicit
SQLite transaction, stopping at the first error.  The connection state at the
moment of return is paired with the error, if any. -/
def SqliteCache.set_batch (db : WriteConn) :
    List CacheEntry → WriteConn × Option CacheError
  | [] => (db, none)
  | e :: rest =>
    match SqliteCache.set db e with
    | .error err => (db, some err)
    | .ok db2 => SqliteCache.set_batch db2 rest

/-- Concrete entry used to exercise `set_batch`. -/
def exEntryA : CacheEntry :=
  { path := "/photos/a.jpg"
    hash := [222, 173, 190, 239]
    algorithm := .difference
    file_size := 1000
    file_modified := 1700000000000000000
    cached_at := 1700000001000000000 }

/-- Second concrete entry used to exercise `set_batch`. -/
def exEntryB : CacheEntry :=
  { path := "/photos/b.jpg"
    hash := [1, 2, 3, 4]
    algorithm := .difference
    file_size := 2000
    file_modified := 1700000000000000000
    cached_at := 1700000001000000000 }

/-- An initially empty store whose engine rejects the insert for
`/photos/b.jpg` (the disk fills up after the first autocommit). -/
def exConn : WriteConn :=
  { rows := []
    failInsert := fun p => if p = "/photos/b.jpg" then some "disk full" else none }

/-- Concrete stored row used to exercise `SqliteCache::get`: written at file
size 1000 and modification time 1700000000 s. -/
def exRow : SqliteRow :=
  { path := "/photos/a.jpg"
    hash := [222, 173, 190, 239]
    algorithm := "difference"
    file_size := 1000
    file_modified := 1700000000
    cached_at := 1700000001 }

/-!
The cancellation-aware executor (`Pipeline::run_with_cancellation` and the
`CancellationToken` alias) is re-exported by `src/core/pipeline/mod.rs` and
called from `src-tauri/src/commands.rs`, but its body is absent from the
sources; the model below follows the specification, sections 4.8
("Cancellation") and 5 ("Cancellation semantics").
-/

/-- Modelled from the spec: a `PhotoFile` record as emitted by the walker
(the missing executor consumes these). -/
structure Photo where
  path : String
  size : Nat
  modified : SystemTime
deriving DecidableEq, Repr

/-- Modelled from the spec: the pipeline phase enumeration carried by
`Pipeline.PhaseChanged`. -/
inductive PipelinePhase where
  | scanning
  | hashing
  | comparing
deriving DecidableEq, Repr

/-- Modelled from the spec: the pipeline-level events of the event stream. -/
inductive PipelineEvent where
  | started
  | phaseChanged (phase : PipelinePhase)
  | completed
  | cancelled
deriving DecidableEq, Repr

/-- Modelled from the spec: the shared cancellation flag (a shared atomic
boolean, missing `CancellationToken`).  Once set it stays set, so its history
is represented by the index of the first checkpoint at which it reads true —
`none` means it is never set. -/
def flagAt (cancelFrom : Option Nat) (k : Nat) : Bool :=
  match cancelFrom with
  | none => false
  | some c => decide (c ≤ k)

/-- Outcome of the scan phase of the modelled cancellable run: photos found,
the guard-checkpoint index of every directory iteration that was started, the
next free checkpoint index, and whether cancellation was observed. -/
structure ScanOut where
  photos : List Photo
  started : List Nat
  k : Nat
  cancelled : Bool

/-- Modelled from the spec: the walker checks the flag at the top of each
directory iteration; on observation it stops starting new directories and
reports cancellation with the photos found so far. -/
def scanWalk (flag : Nat → Bool) : List (List Photo) → Nat → ScanOut
  | [], k => ⟨[], [], k, false⟩
  | d :: rest, k =>
    if flag k then ⟨[], [], k + 1, true⟩
    else
      let o := scanWalk flag rest (k + 1)
      ⟨d ++ o.photos, k :: o.started, o.k, o.cancelled⟩

/-- Outcome of hashing one chunk: the photos hashed (with their hash bytes),
the cache entries queued by cache misses, started-unit guards, next
checkpoint, cancellation. -/
structure HashChunkOut where
  hashed : List (Photo × List Nat)
  queued : List CacheEntry
  started : List Nat
  k : Nat
  cancelled : Bool

/-- Modelled from the spec: within a chunk the flag is checked before each
photo is handed to the hasher; a cache hit queues no entry, a miss queues a
fresh `CacheEntry` (`cached_at` is irrelevant here and fixed to the epoch). -/
def hashChunk (flag : Nat → Bool) (hashFn : Photo → List Nat)
    (cacheHit : Photo → Bool) (algo : HashAlgorithmKind) :
    List Photo → Nat → HashChunkOut
  | [], k => ⟨[], [], [], k, false⟩
  | p :: rest, k =>
    if flag k then ⟨[], [], [], k + 1, true⟩
    else
      let hv := hashFn p
      let q : List CacheEntry :=
        if cacheHit p then []
        else [⟨p.path, hv, algo, p.size, p.modified, 0⟩]
      let o := hashChunk flag hashFn cacheHit algo rest (k + 1)
      ⟨(p, hv) :: o.hashed, q ++ o.queued, k :: o.started, o.k, o.cancelled⟩

/-- Outcome of the whole hashing phase: hashes collected, cache entries
flushed to the backend so far, started-unit guards, next checkpoint,
cancellation. -/
structure HashPhaseOut where
  hashed : List (Photo × List Nat)
  flushed : List CacheEntry
  started : List Nat
  k : Nat
  cancelled : Bool

/-- Modelled from the spec: photos are processed in chunks; the flag is also
checked at each chunk boundary; after a chunk — even one cut short by
cancellation — its queued entries are flushed to the cache ("flushes
remaining cache entries from the current chunk"). -/
def hashChunks (flag : Nat → Bool) (hashFn : Photo → List Nat)
    (cacheHit : Photo → Bool) (algo : HashAlgorithmKind) :
    List (List Photo) → Nat → HashPhaseOut
  | [], k => ⟨[], [], [], k, false⟩
  | ch :: rest, k =>
    if flag k then ⟨[], [], [], k + 1, true⟩
    else
      let o := hashChunk flag hashFn cacheHit algo ch (k + 1)
      if o.cancelled then ⟨o.hashed, o.queued, o.started, o.k, true⟩
      else
        let o2 := hashChunks flag hashFn cacheHit algo rest o.k
        ⟨o.hashed ++ o2.hashed, o.queued ++ o2.flushed,
          o.started ++ o2.started, o2.k, o2.cancelled⟩

/-- Modelled from the spec: `photos.chunks(n + 1)` — split a list into
consecutive chunks; the executor uses `CHUNK_SIZE = 100`. -/
def chunksOf (n : Nat) : List Photo → List (List Photo)
  | [] => []
  | p :: ps => (p :: ps).take (n + 1) :: chunksOf n ((p :: ps).drop (n + 1))
termination_by l => l.length
decreasing_by simp; omega

/-- Outcome of the comparison phase: match records `(path_a, path_b,
distance)`, started-unit guards, next checkpoint, cancellation. -/
structure CompareOut where
  found : List (String × String × Nat)
  started : List Nat
  k : Nat
  cancelled : Bool

/-- Modelled from the spec: the comparator checks the flag in its outer loop;
each outer iteration compares one hash against all later ones and emits a
match for every pair within the threshold. -/
def comparePairs (flag : Nat → Bool) (dist : List Nat → List Nat → Nat)
    (thr : Nat) : List (Photo × List Nat) → Nat → CompareOut
  | [], k => ⟨[], [], k, false⟩
  | (p, hv) :: rest, k =>
    if flag k then ⟨[], [], k + 1, true⟩
    else
      let row := rest.filterMap (fun q =>
        if dist hv q.2 ≤ thr then some (p.path, q.1.path, dist hv q.2)
        else none)
      let o := comparePairs flag dist thr rest (k + 1)
      ⟨row ++ o.found, k :: o.started, o.k, o.cancelled⟩

/-- Modelled from the spec: union-find style grouping, one match at a time —
merge every existing group touched by either endpoint of the match into one
group containing both endpoints. -/
def addMatch (gs : List (List String)) (m : String × String × Nat) :
    List (List String) :=
  let touched := gs.filter (fun g => g.contains m.1 || g.contains m.2.1)
  let others := gs.filter (fun g => !(g.contains m.1 || g.contains m.2.1))
  (m.1 :: m.2.1 :: touched.flatten).dedup :: others

/-- Modelled from the spec: groups are the connected components of the match
relation, keeping only buckets of size at least 2. -/
def groupMatches (ms : List (String × String × Nat)) : List (List String) :=
  (ms.foldl addMatch []).filter (fun g => 2 ≤ g.length)

/-- The cache entries a list of hashed photos queues: one per cache miss. -/
def queuedEntries (cacheHit : Photo → Bool) (algo : HashAlgorithmKind)
    (l : List (Photo × List Nat)) : List CacheEntry :=
  l.flatMap (fun ph =>
    if cacheHit ph.1 then []
    else [⟨ph.1.path, ph.2, algo, ph.1.size, ph.1.modified, 0⟩])

/-- Outcome of a whole cancellable pipeline run. -/
structure RunOut where
  groups : List (List String)
  cache : List CacheEntry
  hashed : List (Photo × List Nat)
  found : List (String × String × Nat)
  started : List Nat
  events : List PipelineEvent
  k : Nat
  cancelled : Bool

/-- Modelled from the spec: the missing `Pipeline::run_with_cancellation` —
scan, hash in chunks of 100 with per-chunk cache flushes, compare, group;
the cancellation flag is observed at the walker's directory iterations, the
per-photo hash checkpoints, the chunk boundaries and the comparator's outer
loop; on observation the run short-circuits, flushes the current chunk's
remaining cache entries, emits `Pipeline.Cancelled` instead of `Completed`,
and returns the partial result built from the work completed so far. -/
def runPipeline (flag : Nat → Bool) (hashFn : Photo → List Nat)
    (cacheHit : Photo → Bool) (algo : HashAlgorithmKind)
    (dist : List Nat → List Nat → Nat) (thr : Nat)
    (dirs : List (List Photo)) : RunOut :=
  let ev0 := [PipelineEvent.started, PipelineEvent.phaseChanged .scanning]
  let s := scanWalk flag dirs 0
  if s.cancelled then
    { groups := [], cache := [], hashed := [], found := []
      started := s.started, events := ev0 ++ [.cancelled]
      k := s.k, cancelled := true }
  else if s.photos.isEmpty then
    { groups := [], cache := [], hashed := [], found := []
      started := s.started, events := ev0 ++ [.completed]
      k := s.k, cancelled := false }
  else
    let h := hashChunks flag hashFn cacheHit algo (chunksOf 99 s.photos) s.k
    if h.cancelled then
      { groups := [], cache := h.flushed, hashed := h.hashed, found := []
        started := s.started ++ h.started
        events := ev0 ++ [.phaseChanged .hashing, .cancelled]
        k := h.k, cancelled := true }
    else
      let c := comparePairs flag dist thr h.hashed h.k
      if c.cancelled then
        { groups := groupMatches c.found, cache := h.flushed
          hashed := h.hashed, found := c.found
          started := s.started ++ h.started ++ c.started
          events := ev0 ++ [.phaseChanged .hashing, .phaseChanged .comparing,
            .cancelled]
          k := c.k, cancelled := true }
      else
        { groups := groupMatches c.found, cache := h.flushed
          hashed := h.hashed, found := c.found
          started := s.started ++ h.started ++ c.started
          events := ev0 ++ [.phaseChanged .hashing, .phaseChanged .comparing,
            .completed]
          k := c.k, cancelled := false }

/-- Concrete photo used to exercise the cancellable pipeline model. -/
def exPhoto : Photo :=
  { path := "/photos/a.jpg", size := 1000, modified := 1700000000000000000 }

/-- A concrete cancellable run: the flag is already set at checkpoint 0 and
the input is one directory holding one photo. -/
def exRun : RunOut :=
  runPipeline (flagAt (some 0)) (fun _ => [0]) (fun _ => false) .difference
    (fun _ _ => 0) 8 [[exPhoto]]

/-! ## Theorems -/

/-- `SqliteCache.get` on a readable store with no row for the path. -/
theorem SqliteCache.get_ok_of_find_none (rows : List SqliteRow) (p : String)
    (s : Nat) (t : SystemTime)
    (h : rows.find? (fun r => r.path == p) = none) :
    SqliteCache.get (.ok rows) p s t = .ok none := by
  simp [SqliteCache.get, h]

/-- `SqliteCache.get` on a readable store holding a row for the path. -/
theorem SqliteCache.get_ok_of_find_some (rows : List SqliteRow) (p : String)
    (s : Nat) (t : SystemTime) (r : SqliteRow)
    (h : rows.find? (fun r => r.path == p) = some r) :
    SqliteCache.get (.ok rows) p s t =
      if (SqliteCache.rowToEntry p r).is_valid_for s t then
        .ok (some (SqliteCache.rowToEntry p r))
      else .ok none := by
  simp [SqliteCache.get, h]

/-- C2: for every path `p`, size `s` and mtime `t`, `cache.get(p, s, t)`
returns `Some` entry iff the store holds an entry for `p` whose `file_size`
equals `s` and whose `file_modified` equals `t` at whole-second precision;
a freshness mismatch or an absent entry yields `None` rather than an error,
and a storage failure (failing query, poisoned lock) is reported as an error,
distinct from a miss. -/
theorem sqlite_get_freshness (rows : List SqliteRow)
    (hpk : (rows.map SqliteRow.path).Nodup)
    (p : String) (s : Nat) (t : SystemTime) :
    ((∃ e, SqliteCache.get (.ok rows) p s t = .ok (some e)) ↔
      ∃ r ∈ rows, r.path = p ∧ i64AsU64 r.file_size = s ∧
        secsSinceEpoch (SqliteCache.from_timestamp r.file_modified) =
          secsSinceEpoch t)
    ∧ ((¬ ∃ e, SqliteCache.get (.ok rows) p s t = .ok (some e)) →
        SqliteCache.get (.ok rows) p s t = .ok none)
    ∧ (∀ reason, SqliteCache.get (.queryFault reason) p s t =
        .error (.queryFailed reason))
    ∧ (∀ dbPath, SqliteCache.get (.poisoned dbPath) p s t =
        .error (.corrupted dbPath)) := by
  refine ⟨?_, ?_, fun reason => rfl, fun dbPath => rfl⟩
  · constructor
    · rintro ⟨e, he⟩
      cases hfind : rows.find? (fun r => r.path == p) with
      | none =>
        rw [SqliteCache.get_ok_of_find_none rows p s t hfind] at he
        exact absurd he (by simp)
      | some r =>
        rw [SqliteCache.get_ok_of_find_some rows p s t r hfind] at he
        have hmem : r ∈ rows := List.mem_of_find?_eq_some hfind
        have hbeq := List.find?_some hfind
        have hpath : r.path = p := eq_of_beq hbeq
        by_cases hv : (SqliteCache.rowToEntry p r).is_valid_for s t
        · have hv2 : i64AsU64 r.file_size = s ∧
              secsSinceEpoch (SqliteCache.from_timestamp r.file_modified) =
                secsSinceEpoch t := by
            simpa [CacheEntry.is_valid_for, SqliteCache.rowToEntry] using hv
          exact ⟨r, hmem, hpath, hv2.1, hv2.2⟩
        · rw [if_neg hv] at he
          exact absurd he (by simp)
    · rintro ⟨r, hmem, hpath, hsize, hsecs⟩
      cases hfind : rows.find? (fun q => q.path == p) with
      | none =>
        exact absurd (List.find?_eq_none.mp hfind r hmem)
          (by simp [hpath])
      | some r0 =>
        have hmem0 : r0 ∈ rows := List.mem_of_find?_eq_some hfind
        have hbeq0 := List.find?_some hfind
        have hpath0 : r0.path = p := eq_of_beq hbeq0
        have : r0 = r :=
          List.inj_on_of_nodup_map hpk hmem0 hmem (by rw [hpath0, hpath])
        subst this
        have hv : (SqliteCache.rowToEntry p r0).is_valid_for s t := by
          simp [CacheEntry.is_valid_for, SqliteCache.rowToEntry, hsize, hsecs]
        rw [SqliteCache.get_ok_of_find_some rows p s t r0 hfind, if_pos hv]
        exact ⟨_, rfl⟩
  · intro hne
    cases hfind : rows.find? (fun r => r.path == p) with
    | none => exact SqliteCache.get_ok_of_find_none rows p s t hfind
    | some r =>
      rw [SqliteCache.get_ok_of_find_some rows p s t r hfind]
      by_cases hv : (SqliteCache.rowToEntry p r).is_valid_for s t
      · exact absurd ⟨SqliteCache.rowToEntry p r,
          by rw [SqliteCache.get_ok_of_find_some rows p s t r hfind,
            if_pos hv]⟩ hne
      · rw [if_neg hv]

/-- Witness for `sqlite_get_freshness` at a concrete store holding one fresh
row for `/photos/a.jpg`. -/
theorem sqlite_get_freshness_witness :
    ([exRow].map SqliteRow.path).Nodup ∧
    (((∃ e, SqliteCache.get (.ok [exRow]) "/photos/a.jpg" 1000
        1700000000000000000 = .ok (some e)) ↔
      ∃ r ∈ [exRow], r.path = "/photos/a.jpg" ∧ i64AsU64 r.file_size = 1000 ∧
        secsSinceEpoch (SqliteCache.from_timestamp r.file_modified) =
          secsSinceEpoch 1700000000000000000)
    ∧ ((¬ ∃ e, SqliteCache.get (.ok [exRow]) "/photos/a.jpg" 1000
        1700000000000000000 = .ok (some e)) →
        SqliteCache.get (.ok [exRow]) "/photos/a.jpg" 1000
          1700000000000000000 = .ok none)
    ∧ (∀ reason, SqliteCache.get (.queryFault reason) "/photos/a.jpg" 1000
        1700000000000000000 = .error (.queryFailed reason))
    ∧ (∀ dbPath, SqliteCache.get (.poisoned dbPath) "/photos/a.jpg" 1000
        1700000000000000000 = .error (.corrupted dbPath))) :=
  ⟨by decide, sqlite_get_freshness [exRow] (by decide) "/photos/a.jpg" 1000
    1700000000000000000⟩

/-- C3: evaluating `SqliteCache`'s inherited `set_batch` on the batch
`[exEntryA, exEntryB]` over an empty store whose engine rejects the second
insert: the call returns an error, yet the first entry has been persisted —
the store is not unchanged on error, so the batch is not one transaction. -/
theorem set_batch_partial_write_on_error :
    exConn.rows = []
    ∧ (SqliteCache.set_batch exConn [exEntryA, exEntryB]).2 =
        some (CacheError.queryFailed "disk full")
    ∧ (SqliteCache.set_batch exConn [exEntryA, exEntryB]).1.rows =
        [SqliteCache.entryToRow exEntryA] :=
  ⟨rfl, rfl, rfl⟩

/-- The walker only advances the checkpoint counter. -/
theorem scanWalk_k_le (flag : Nat → Bool) (dirs : List (List Photo))
    (k : Nat) : k ≤ (scanWalk flag dirs k).k := by
  induction dirs generalizing k with
  | nil => exact Nat.le_refl k
  | cons d rest ih =>
    by_cases hf : flag k = true
    · simp [scanWalk, hf]
    · simp only [scanWalk, if_neg hf]
      exact Nat.le_trans (Nat.le_succ k) (ih (k + 1))

/-- If the walker was not cancelled, the flag read false at every checkpoint
it consumed. -/
theorem scanWalk_window (flag : Nat → Bool) (dirs : List (List Photo))
    (k : Nat) (h : (scanWalk flag dirs k).cancelled = false) :
    ∀ j, k ≤ j → j < (scanWalk flag dirs k).k → flag j = false := by
  induction dirs generalizing k with
  | nil => intro j hj1 hj2; simp [scanWalk] at hj2; omega
  | cons d rest ih =>
    intro j hj1 hj2
    by_cases hf : flag k = true
    · simp [scanWalk, hf] at h
    · simp only [scanWalk, if_neg hf] at h hj2
      rcases Nat.eq_or_lt_of_le hj1 with rfl | hj1'
      · exact Bool.not_eq_true _ ▸ (by simpa using hf)
      · exact ih (k + 1) h j hj1' hj2

/-- Every directory iteration the walker started had read the flag as
false at its guard checkpoint. -/
theorem scanWalk_started (flag : Nat → Bool) (dirs : List (List Photo))
    (k : Nat) : ∀ g ∈ (scanWalk flag dirs k).started, flag g = false := by
  induction dirs generalizing k with
  | nil => simp [scanWalk]
  | cons d rest ih =>
    by_cases hf : flag k = true
    · simp [scanWalk, hf]
    · simp only [scanWalk, if_neg hf]
      intro g hg
      rcases List.mem_cons.mp hg with rfl | hg'
      · simpa using hf
      · exact ih (k + 1) g hg'

/-- Hashing a chunk only advances the checkpoint counter. -/
theorem hashChunk_k_le (flag : Nat → Bool) (hashFn : Photo → List Nat)
    (cacheHit : Photo → Bool) (algo : HashAlgorithmKind) (l : List Photo)
    (k : Nat) : k ≤ (hashChunk flag hashFn cacheHit algo l k).k := by
  induction l generalizing k with
  | nil => exact Nat.le_refl k
  | cons p rest ih =>
    by_cases hf : flag k = true
    · simp [hashChunk, hf]
    · simp only [hashChunk, if_neg hf]
      exact Nat.le_trans (Nat.le_succ k) (ih (k + 1))

/-- If a chunk was hashed without observing cancellation, the flag read false
at every checkpoint the chunk consumed. -/
theorem hashChunk_window (flag : Nat → Bool) (hashFn : Photo → List Nat)
    (cacheHit : Photo → Bool) (algo : HashAlgorithmKind) (l : List Photo)
    (k : Nat) (h : (hashChunk flag hashFn cacheHit algo l k).cancelled = false) :
    ∀ j, k ≤ j → j < (hashChunk flag hashFn cacheHit algo l k).k →
      flag j = false := by
  induction l generalizing k with
  | nil => intro j hj1 hj2; simp [hashChunk] at hj2; omega
  | cons p rest ih =>
    intro j hj1 hj2
    by_cases hf : flag k = true
    · simp [hashChunk, hf] at h
    · simp only [hashChunk, if_neg hf] at h hj2
      rcases Nat.eq_or_lt_of_le hj1 with rfl | hj1'
      · simpa using hf
      · exact ih (k + 1) h j hj1' hj2

/-- Every per-photo hashing unit a chunk started had read the flag as false
at its guard checkpoint. -/
theorem hashChunk_started (flag : Nat → Bool) (hashFn : Photo → List Nat)
    (cacheHit : Photo → Bool) (algo : HashAlgorithmKind) (l : List Photo)
    (k : Nat) :
    ∀ g ∈ (hashChunk flag hashFn cacheHit algo l k).started, flag g = false := by
  induction l generalizing k with
  | nil => simp [hashChunk]
  | cons p rest ih =>
    by_cases hf : flag k = true
    · simp [hashChunk, hf]
    · simp only [hashChunk, if_neg hf]
      intro g hg
      rcases List.mem_cons.mp hg with rfl | hg'
      · simpa using hf
      · exact ih (k + 1) g hg'

/-- A chunk queues exactly one cache entry per hashed cache miss. -/
theorem hashChunk_queued (flag : Nat → Bool) (hashFn : Photo → List Nat)
    (cacheHit : Photo → Bool) (algo : HashAlgorithmKind) (l : List Photo)
    (k : Nat) :
    (hashChunk flag hashFn cacheHit algo l k).queued =
      queuedEntries cacheHit algo
        (hashChunk flag hashFn cacheHit algo l k).hashed := by
  induction l generalizing k with
  | nil => simp [hashChunk, queuedEntries]
  | cons p rest ih =>
    by_cases hf : flag k = true
    · simp [hashChunk, hf, queuedEntries]
    · simp only [hashChunk, if_neg hf]
      simp [queuedEntries, ih (k + 1)]

/-- `queuedEntries` distributes over list append. -/
theorem queuedEntries_append (cacheHit : Photo → Bool)
    (algo : HashAlgorithmKind) (l1 l2 : List (Photo × List Nat)) :
    queuedEntries cacheHit algo (l1 ++ l2) =
      queuedEntries cacheHit algo l1 ++ queuedEntries cacheHit algo l2 := by
  simp [queuedEntries]

/-- The hashing phase only advances the checkpoint counter. -/
theorem hashChunks_k_le (flag : Nat → Bool) (hashFn : Photo → List Nat)
    (cacheHit : Photo → Bool) (algo : HashAlgorithmKind)
    (chs : List (List Photo)) (k : Nat) :
    k ≤ (hashChunks flag hashFn cacheHit algo chs k).k := by
  induction chs generalizing k with
  | nil => exact Nat.le_refl k
  | cons ch rest ih =>
    by_cases hf : flag k = true
    · simp [hashChunks, hf]
    · simp only [hashChunks, if_neg hf]
      by_cases hc : (hashChunk flag hashFn cacheHit algo ch (k + 1)).cancelled = true
      · simp only [hc, if_pos rfl]
        exact Nat.le_trans (Nat.le_succ k)
          (hashChunk_k_le flag hashFn cacheHit algo ch (k + 1))
      · rw [if_neg hc]
        exact Nat.le_trans (Nat.le_succ k)
          (Nat.le_trans (hashChunk_k_le flag hashFn cacheHit algo ch (k + 1))
            (ih _))

/-- If the hashing phase was not cancelled, the flag read false at every
checkpoint it consumed. -/
theorem hashChunks_window (flag : Nat → Bool) (hashFn : Photo → List Nat)
    (cacheHit : Photo → Bool) (algo : HashAlgorithmKind)
    (chs : List (List Photo)) (k : Nat)
    (h : (hashChunks flag hashFn cacheHit algo chs k).cancelled = false) :
    ∀ j, k ≤ j → j < (hashChunks flag hashFn cacheHit algo chs k).k →
      flag j = false := by
  induction chs generalizing k with
  | nil => intro j hj1 hj2; simp [hashChunks] at hj2; omega
  | cons ch rest ih =>
    intro j hj1 hj2
    by_cases hf : flag k = true
    · simp [hashChunks, hf] at h
    · simp only [hashChunks, if_neg hf] at h hj2
      by_cases hc : (hashChunk flag hashFn cacheHit algo ch (k + 1)).cancelled = true
      · rw [if_pos hc] at h
        simp at h
      · rw [if_neg hc] at h hj2
        rcases Nat.eq_or_lt_of_le hj1 with rfl | hj1'
        · simpa using hf
        · rcases Nat.lt_or_ge j (hashChunk flag hashFn cacheHit algo ch (k + 1)).k
            with hj3 | hj3
          · exact hashChunk_window flag hashFn cacheHit algo ch (k + 1)
              (Bool.not_eq_true _ ▸ (by simpa using hc)) j hj1' hj3
          · exact ih _ h j hj3 hj2

/-- Every unit the hashing phase started had read the flag as false at its
guard checkpoint. -/
theorem hashChunks_started (flag : Nat → Bool) (hashFn : Photo → List Nat)
    (cacheHit : Photo → Bool) (algo : HashAlgorithmKind)
    (chs : List (List Photo)) (k : Nat) :
    ∀ g ∈ (hashChunks flag hashFn cacheHit algo chs k).started,
      flag g = false := by
  induction chs generalizing k with
  | nil => simp [hashChunks]
  | cons ch rest ih =>
    by_cases hf : flag k = true
    · simp [hashChunks, hf]
    · simp only [hashChunks, if_neg hf]
      by_cases hc : (hashChunk flag hashFn cacheHit algo ch (k + 1)).cancelled = true
      · rw [if_pos hc]
        exact hashChunk_started flag hashFn cacheHit algo ch (k + 1)
      · rw [if_neg hc]
        intro g hg
        rcases List.mem_append.mp hg with hg' | hg'
        · exact hashChunk_started flag hashFn cacheHit algo ch (k + 1) g hg'
        · exact ih _ g hg'

/-- The cache entries the hashing phase flushed are exactly those queued by
its hashed cache misses — including the partial current chunk on
cancellation. -/
theorem hashChunks_flushed (flag : Nat → Bool) (hashFn : Photo → List Nat)
    (cacheHit : Photo → Bool) (algo : HashAlgorithmKind)
    (chs : List (List Photo)) (k : Nat) :
    (hashChunks flag hashFn cacheHit algo chs k).flushed =
      queuedEntries cacheHit algo
        (hashChunks flag hashFn cacheHit algo chs k).hashed := by
  induction chs generalizing k with
  | nil => simp [hashChunks, queuedEntries]
  | cons ch rest ih =>
    by_cases hf : flag k = true
    · simp [hashChunks, hf, queuedEntries]
    · simp only [hashChunks, if_neg hf]
      by_cases hc : (hashChunk flag hashFn cacheHit algo ch (k + 1)).cancelled = true
      · rw [if_pos hc]
        exact hashChunk_queued flag hashFn cacheHit algo ch (k + 1)
      · rw [if_neg hc]
        simp only [queuedEntries_append]
        rw [hashChunk_queued flag hashFn cacheHit algo ch (k + 1), ih _]

/-- The comparator only advances the checkpoint counter. -/
theorem comparePairs_k_le (flag : Nat → Bool)
    (dist : List Nat → List Nat → Nat) (thr : Nat)
    (l : List (Photo × List Nat)) (k : Nat) :
    k ≤ (comparePairs flag dist thr l k).k := by
  induction l generalizing k with
  | nil => exact Nat.le_refl k
  | cons q rest ih =>
    obtain ⟨p, hv⟩ := q
    by_cases hf : flag k = true
    · simp [comparePairs, hf]
    · simp only [comparePairs, if_neg hf]
      exact Nat.le_trans (Nat.le_succ k) (ih (k + 1))

/-- If the comparator was not cancelled, the flag read false at every
checkpoint it consumed. -/
theorem comparePairs_window (flag : Nat → Bool)
    (dist : List Nat → List Nat → Nat) (thr : Nat)
    (l : List (Photo × List Nat)) (k : Nat)
    (h : (comparePairs flag dist thr l k).cancelled = false) :
    ∀ j, k ≤ j → j < (comparePairs flag dist thr l k).k →
      flag j = false := by
  induction l generalizing k with
  | nil => intro j hj1 hj2; simp [comparePairs] at hj2; omega
  | cons q rest ih =>
    obtain ⟨p, hv⟩ := q
    intro j hj1 hj2
    by_cases hf : flag k = true
    · simp [comparePairs, hf] at h
    · simp only [comparePairs, if_neg hf] at h hj2
      rcases Nat.eq_or_lt_of_le hj1 with rfl | hj1'
      · simpa using hf
      · exact ih (k + 1) h j hj1' hj2

/-- Every outer-loop comparison unit started had read the flag as false at
its guard checkpoint. -/
theorem comparePairs_started (flag : Nat → Bool)
    (dist : List Nat → List Nat → Nat) (thr : Nat)
    (l : List (Photo × List Nat)) (k : Nat) :
    ∀ g ∈ (comparePairs flag dist thr l k).started, flag g = false := by
  induction l generalizing k with
  | nil => simp [comparePairs]
  | cons q rest ih =>
    obtain ⟨p, hv⟩ := q
    by_cases hf : flag k = true
    · simp [comparePairs, hf]
    · simp only [comparePairs, if_neg hf]
      intro g hg
      rcases List.mem_cons.mp hg with rfl | hg'
      · simpa using hf
      · exact ih (k + 1) g hg'

/-- Both endpoints of every match the comparator emitted are paths of photos
in its input. -/
theorem comparePairs_found (flag : Nat → Bool)
    (dist : List Nat → List Nat → Nat) (thr : Nat)
    (l : List (Photo × List Nat)) (k : Nat) :
    ∀ m ∈ (comparePairs flag dist thr l k).found,
      (∃ ph ∈ l, m.1 = ph.1.path) ∧ ∃ ph ∈ l, m.2.1 = ph.1.path := by
  induction l generalizing k with
  | nil => simp [comparePairs]
  | cons q rest ih =>
    obtain ⟨p, hv⟩ := q
    by_cases hf : flag k = true
    · simp [comparePairs, hf]
    · simp only [comparePairs, if_neg hf]
      intro m hm
      rcases List.mem_append.mp hm with hm' | hm'
      · rw [List.mem_filterMap] at hm'
        obtain ⟨q', hq', hmq⟩ := hm'
        by_cases hd : dist hv q'.2 ≤ thr
        · rw [if_pos hd] at hmq
          obtain rfl : (p.path, q'.1.path, dist hv q'.2) = m := by
            simpa using hmq
          exact ⟨⟨(p, hv), List.mem_cons_self _ _, rfl⟩,
            ⟨q', List.mem_cons_of_mem _ hq', rfl⟩⟩
        · rw [if_neg hd] at hmq
          exact absurd hmq (by simp)
      · obtain ⟨⟨ph1, h1, e1⟩, ⟨ph2, h2, e2⟩⟩ := ih (k + 1) m hm'
        exact ⟨⟨ph1, List.mem_cons_of_mem _ h1, e1⟩,
          ⟨ph2, List.mem_cons_of_mem _ h2, e2⟩⟩

/-- Elements of groups built by folding `addMatch` come from the initial
groups or from match endpoints. -/
theorem foldl_addMatch_mem (P : String → Prop)
    (ms : List (String × String × Nat)) :
    ∀ acc : List (List String),
      (∀ g ∈ acc, ∀ x ∈ g, P x) →
      (∀ m ∈ ms, P m.1 ∧ P m.2.1) →
      ∀ g ∈ ms.foldl addMatch acc, ∀ x ∈ g, P x := by
  induction ms with
  | nil => intro acc hacc _ g hg; exact hacc g hg
  | cons m rest ih =>
    intro acc hacc hms
    refine ih (addMatch acc m) ?_
      (fun m' hm' => hms m' (List.mem_cons_of_mem _ hm'))
    intro g' hg' y hy
    simp only [addMatch] at hg'
    rcases List.mem_cons.mp hg' with rfl | hg''
    · rw [List.mem_dedup] at hy
      rcases List.mem_cons.mp hy with rfl | hy'
      · exact (hms m (List.mem_cons_self _ _)).1
      · rcases List.mem_cons.mp hy' with rfl | hy''
        · exact (hms m (List.mem_cons_self _ _)).2
        · rw [List.mem_flatten] at hy''
          obtain ⟨t, ht, hyt⟩ := hy''
          exact hacc t (List.mem_of_mem_filter ht) y hyt
    · exact hacc g' (List.mem_of_mem_filter hg'') y hy

/-- Every path in a group produced by `groupMatches` is an endpoint of one of
the matches. -/
theorem groupMatches_mem (P : String → Prop)
    (ms : List (String × String × Nat))
    (hms : ∀ m ∈ ms, P m.1 ∧ P m.2.1) :
    ∀ g ∈ groupMatches ms, ∀ x ∈ g, P x := by
  intro g hg
  exact foldl_addMatch_mem P ms [] (by simp) hms g
    (List.mem_of_mem_filter hg)

/-- C1: when the shared cancellation flag is set during a run — some
checkpoint at or past its set-point `c` is consumed — the modelled pipeline
observes it and: reports cancellation, emits `Pipeline.Cancelled` and no
`Completed`, started no work unit at a checkpoint where the flag already read
true (every started unit's guard index is below `c`), flushed exactly the
cache entries queued by the photos whose hashes completed (including the
partial current chunk), and returned a partial result whose groups mention
only photos with completed hashes. -/
theorem pipeline_cancelled_behaviour (c thr : Nat) (hashFn : Photo → List Nat)
    (cacheHit : Photo → Bool) (algo : HashAlgorithmKind)
    (dist : List Nat → List Nat → Nat) (dirs : List (List Photo))
    (out : RunOut)
    (hout : out = runPipeline (flagAt (some c)) hashFn cacheHit algo dist thr
      dirs)
    (hset : c < out.k) :
    out.cancelled = true
    ∧ PipelineEvent.cancelled ∈ out.events
    ∧ PipelineEvent.completed ∉ out.events
    ∧ (∀ g ∈ out.started, g < c)
    ∧ out.cache = queuedEntries cacheHit algo out.hashed
    ∧ ∀ grp ∈ out.groups, ∀ x ∈ grp, ∃ ph ∈ out.hashed, x = ph.1.path := by
  subst hout
  have flag_lt : ∀ g : Nat, flagAt (some c) g = false → g < c := by
    intro g hg
    simp only [flagAt, decide_eq_false_iff_not] at hg
    omega
  have flag_self : flagAt (some c) c = true := by simp [flagAt]
  by_cases hs : (scanWalk (flagAt (some c)) dirs 0).cancelled = true
  · have hrun : runPipeline (flagAt (some c)) hashFn cacheHit algo dist thr
        dirs =
        { groups := [], cache := [], hashed := [], found := []
          started := (scanWalk (flagAt (some c)) dirs 0).started
          events := [PipelineEvent.started,
            PipelineEvent.phaseChanged .scanning, PipelineEvent.cancelled]
          k := (scanWalk (flagAt (some c)) dirs 0).k
          cancelled := true } := by
      simp [runPipeline, hs]
    rw [hrun]
    exact ⟨rfl, by simp, by simp,
      fun g hg => flag_lt g (scanWalk_started (flagAt (some c)) dirs 0 g hg),
      rfl, by simp⟩
  · by_cases hemp : (scanWalk (flagAt (some c)) dirs 0).photos.isEmpty = true
    · exfalso
      have hrun : runPipeline (flagAt (some c)) hashFn cacheHit algo dist thr
          dirs =
          { groups := [], cache := [], hashed := [], found := []
            started := (scanWalk (flagAt (some c)) dirs 0).started
            events := [PipelineEvent.started,
              PipelineEvent.phaseChanged .scanning, PipelineEvent.completed]
            k := (scanWalk (flagAt (some c)) dirs 0).k
            cancelled := false } := by
        simp [runPipeline, hs, hemp]
      rw [hrun] at hset
      have hc : flagAt (some c) c = false :=
        scanWalk_window (flagAt (some c)) dirs 0 (by simpa using hs) c
          (Nat.zero_le c) hset
      rw [flag_self] at hc
      exact Bool.noConfusion hc
    · by_cases hh : (hashChunks (flagAt (some c)) hashFn cacheHit algo
          (chunksOf 99 (scanWalk (flagAt (some c)) dirs 0).photos)
          (scanWalk (flagAt (some c)) dirs 0).k).cancelled = true
      · have hrun : runPipeline (flagAt (some c)) hashFn cacheHit algo dist
            thr dirs =
            { groups := []
              cache := (hashChunks (flagAt (some c)) hashFn cacheHit algo
                (chunksOf 99 (scanWalk (flagAt (some c)) dirs 0).photos)
                (scanWalk (flagAt (some c)) dirs 0).k).flushed
              hashed := (hashChunks (flagAt (some c)) hashFn cacheHit algo
                (chunksOf 99 (scanWalk (flagAt (some c)) dirs 0).photos)
                (scanWalk (flagAt (some c)) dirs 0).k).hashed
              found := []
              started := (scanWalk (flagAt (some c)) dirs 0).started ++
                (hashChunks (flagAt (some c)) hashFn cacheHit algo
                  (chunksOf 99 (scanWalk (flagAt (some c)) dirs 0).photos)
                  (scanWalk (flagAt (some c)) dirs 0).k).started
              events := [PipelineEvent.started,
                PipelineEvent.phaseChanged .scanning,
                PipelineEvent.phaseChanged .hashing, PipelineEvent.cancelled]
              k := (hashChunks (flagAt (some c)) hashFn cacheHit algo
                (chunksOf 99 (scanWalk (flagAt (some c)) dirs 0).photos)
                (scanWalk (flagAt (some c)) dirs 0).k).k
              cancelled := true } := by
          simp [runPipeline, hs, hemp, hh]
        rw [hrun]
        refine ⟨rfl, by simp, by simp, ?_,
          hashChunks_flushed (flagAt (some c)) hashFn cacheHit algo
            (chunksOf 99 (scanWalk (flagAt (some c)) dirs 0).photos)
            (scanWalk (flagAt (some c)) dirs 0).k,
          by simp⟩
        intro g hg
        rcases List.mem_append.mp hg with hg' | hg'
        · exact flag_lt g (scanWalk_started (flagAt (some c)) dirs 0 g hg')
        · exact flag_lt g (hashChunks_started (flagAt (some c)) hashFn
            cacheHit algo
            (chunksOf 99 (scanWalk (flagAt (some c)) dirs 0).photos)
            (scanWalk (flagAt (some c)) dirs 0).k g hg')
      · by_cases hcp : (comparePairs (flagAt (some c)) dist thr
            (hashChunks (flagAt (some c)) hashFn cacheHit algo
              (chunksOf 99 (scanWalk (flagAt (some c)) dirs 0).photos)
              (scanWalk (flagAt (some c)) dirs 0).k).hashed
            (hashChunks (flagAt (some c)) hashFn cacheHit algo
              (chunksOf 99 (scanWalk (flagAt (some c)) dirs 0).photos)
              (scanWalk (flagAt (some c)) dirs 0).k).k).cancelled = true
        · have hrun : runPipeline (flagAt (some c)) hashFn cacheHit algo dist
              thr dirs =
              { groups := groupMatches (comparePairs (flagAt (some c)) dist
                  thr (hashChunks (flagAt (some c)) hashFn cacheHit algo
                    (chunksOf 99 (scanWalk (flagAt (some c)) dirs 0).photos)
                    (scanWalk (flagAt (some c)) dirs 0).k).hashed
                  (hashChunks (flagAt (some c)) hashFn cacheHit algo
                    (chunksOf 99 (scanWalk (flagAt (some c)) dirs 0).photos)
                    (scanWalk (flagAt (some c)) dirs 0).k).k).found
                cache := (hashChunks (flagAt (some c)) hashFn cacheHit algo
                  (chunksOf 99 (scanWalk (flagAt (some c)) dirs 0).photos)
                  (scanWalk (flagAt (some c)) dirs 0).k).flushed
                hashed := (hashChunks (flagAt (some c)) hashFn cacheHit algo
                  (chunksOf 99 (scanWalk (flagAt (some c)) dirs 0).photos)
                  (scanWalk (flagAt (some c)) dirs 0).k).hashed
                found := (comparePairs (flagAt (some c)) dist thr
                  (hashChunks (flagAt (some c)) hashFn cacheHit algo
                    (chunksOf 99 (scanWalk (flagAt (some c)) dirs 0).photos)
                    (scanWalk (flagAt (some c)) dirs 0).k).hashed
                  (hashChunks (flagAt (some c)) hashFn cacheHit algo
                    (chunksOf 99 (scanWalk (flagAt (some c)) dirs 0).photos)
                    (scanWalk (flagAt (some c)) dirs 0).k).k).found
                started := (scanWalk (flagAt (some c)) dirs 0).started ++
                  ((hashChunks (flagAt (some c)) hashFn cacheHit algo
                    (chunksOf 99 (scanWalk (flagAt (some c)) dirs 0).photos)
                    (scanWalk (flagAt (some c)) dirs 0).k).started ++
                  (comparePairs (flagAt (some c)) dist thr
                    (hashChunks (flagAt (some c)) hashFn cacheHit algo
                      (chunksOf 99 (scanWalk (flagAt (some c)) dirs 0).photos)
                      (scanWalk (flagAt (some c)) dirs 0).k).hashed
                    (hashChunks (flagAt (some c)) hashFn cacheHit algo
                      (chunksOf 99 (scanWalk (flagAt (some c)) dirs 0).photos)
                      (scanWalk (flagAt (some c)) dirs 0).k).k).started)
                events := [PipelineEvent.started,
                  PipelineEvent.phaseChanged .scanning,
                  PipelineEvent.phaseChanged .hashing,
                  PipelineEvent.phaseChanged .comparing,
                  PipelineEvent.cancelled]
                k := (comparePairs (flagAt (some c)) dist thr
                  (hashChunks (flagAt (some c)) hashFn cacheHit algo
                    (chunksOf 99 (scanWalk (flagAt (some c)) dirs 0).photos)
                    (scanWalk (flagAt (some c)) dirs 0).k).hashed
                  (hashChunks (flagAt (some c)) hashFn cacheHit algo
                    (chunksOf 99 (scanWalk (flagAt (some c)) dirs 0).photos)
                    (scanWalk (flagAt (some c)) dirs 0).k).k).k
                cancelled := true } := by
            simp [runPipeline, hs, hemp, hh, hcp]
          rw [hrun]
          refine ⟨rfl, by simp, by simp, ?_,
            hashChunks_flushed (flagAt (some c)) hashFn cacheHit algo
              (chunksOf 99 (scanWalk (flagAt (some c)) dirs 0).photos)
              (scanWalk (flagAt (some c)) dirs 0).k, ?_⟩
          · intro g hg
            rcases List.mem_append.mp hg with hg' | hg'
            · exact flag_lt g (scanWalk_started (flagAt (some c)) dirs 0 g
                hg')
            · rcases List.mem_append.mp hg' with hg'' | hg''
              · exact flag_lt g (hashChunks_started (flagAt (some c)) hashFn
                  cacheHit algo
                  (chunksOf 99 (scanWalk (flagAt (some c)) dirs 0).photos)
                  (scanWalk (flagAt (some c)) dirs 0).k g hg'')
              · exact flag_lt g (comparePairs_started (flagAt (some c)) dist
                  thr (hashChunks (flagAt (some c)) hashFn cacheHit algo
                    (chunksOf 99 (scanWalk (flagAt (some c)) dirs 0).photos)
                    (scanWalk (flagAt (some c)) dirs 0).k).hashed
                  (hashChunks (flagAt (some c)) hashFn cacheHit algo
                    (chunksOf 99 (scanWalk (flagAt (some c)) dirs 0).photos)
                    (scanWalk (flagAt (some c)) dirs 0).k).k g hg'')
          · intro grp hgrp x hx
            exact groupMatches_mem
              (fun y => ∃ ph ∈ (hashChunks (flagAt (some c)) hashFn cacheHit
                algo (chunksOf 99 (scanWalk (flagAt (some c)) dirs 0).photos)
                (scanWalk (flagAt (some c)) dirs 0).k).hashed, y = ph.1.path)
              _
              (fun m hm => comparePairs_found (flagAt (some c)) dist thr
                (hashChunks (flagAt (some c)) hashFn cacheHit algo
                  (chunksOf 99 (scanWalk (flagAt (some c)) dirs 0).photos)
                  (scanWalk (flagAt (some c)) dirs 0).k).hashed
                (hashChunks (flagAt (some c)) hashFn cacheHit algo
                  (chunksOf 99 (scanWalk (flagAt (some c)) dirs 0).photos)
                  (scanWalk (flagAt (some c)) dirs 0).k).k m hm)
              grp hgrp x hx
        · exfalso
          have hrun : (runPipeline (flagAt (some c)) hashFn cacheHit algo
              dist thr dirs).k =
              (comparePairs (flagAt (some c)) dist thr
                (hashChunks (flagAt (some c)) hashFn cacheHit algo
                  (chunksOf 99 (scanWalk (flagAt (some c)) dirs 0).photos)
                  (scanWalk (flagAt (some c)) dirs 0).k).hashed
                (hashChunks (flagAt (some c)) hashFn cacheHit algo
                  (chunksOf 99 (scanWalk (flagAt (some c)) dirs 0).photos)
                  (scanWalk (flagAt (some c)) dirs 0).k).k).k := by
            simp [runPipeline, hs, hemp, hh, hcp]
          rw [hrun] at hset
          have hc : flagAt (some c) c = false := by
            rcases Nat.lt_or_ge c (scanWalk (flagAt (some c)) dirs 0).k with
              h1 | h1
            · exact scanWalk_window (flagAt (some c)) dirs 0
                (by simpa using hs) c (Nat.zero_le c) h1
            · rcases Nat.lt_or_ge c (hashChunks (flagAt (some c)) hashFn
                cacheHit algo
                (chunksOf 99 (scanWalk (flagAt (some c)) dirs 0).photos)
                (scanWalk (flagAt (some c)) dirs 0).k).k with h2 | h2
              · exact hashChunks_window (flagAt (some c)) hashFn cacheHit
                  algo (chunksOf 99 (scanWalk (flagAt (some c)) dirs 0).photos)
                  (scanWalk (flagAt (some c)) dirs 0).k (by simpa using hh) c
                  h1 h2
              · exact comparePairs_window (flagAt (some c)) dist thr
                  (hashChunks (flagAt (some c)) hashFn cacheHit algo
                    (chunksOf 99 (scanWalk (flagAt (some c)) dirs 0).photos)
                    (scanWalk (flagAt (some c)) dirs 0).k).hashed
                  (hashChunks (flagAt (some c)) hashFn cacheHit algo
                    (chunksOf 99 (scanWalk (flagAt (some c)) dirs 0).photos)
                    (scanWalk (flagAt (some c)) dirs 0).k).k
                  (by simpa using hcp) c h2 hset
          rw [flag_self] at hc
          exact Bool.noConfusion hc

/-- Witness for `pipeline_cancelled_behaviour`: the concrete run `exRun`
observes the flag at its very first checkpoint. -/
theorem pipeline_cancelled_behaviour_witness :
    0 < exRun.k ∧
    (exRun.cancelled = true
    ∧ PipelineEvent.cancelled ∈ exRun.events
    ∧ PipelineEvent.completed ∉ exRun.events
    ∧ (∀ g ∈ exRun.started, g < 0)
    ∧ exRun.cache = queuedEntries (fun _ => false) .difference exRun.hashed
    ∧ ∀ grp ∈ exRun.groups, ∀ x ∈ grp, ∃ ph ∈ exRun.hashed, x = ph.1.path) :=
  ⟨by decide, pipeline_cancelled_behaviour 0 8 (fun _ => [0]) (fun _ => false)
    .difference (fun _ _ => 0) [[exPhoto]] exRun rfl (by decide)⟩
